import Mathlib

/-!
Verification of the Frame non-destructive edit-session core.

This file is a shallow embedding of the edit-session model
(`internal/image/session.go`), its sidecar JSON persistence, the sidecar
path derivation (Go `path/filepath` on Unix paths), and the editor view's
undo/redo history, eraser hit-testing and crop application (the GTK
`EditorView` methods).  Go `float64` arithmetic is modelled with exact
rationals (`ℚ`), Go `int` with `ℤ`, Go slices with `List`, nil pointers
with `Option`, and the `interface{}` history payload with a sum type.
External collaborators (the pixbuf image buffers, the widget allocation
size, and the filesystem) are modelled as explicit inputs: buffers by
presence flags plus the integer dimensions read from them, the filesystem
by a map from paths to read outcomes.
-/

namespace Frame

/-- A coordinate in a stroke (`image.Point`, two `float64` fields). -/
structure Point where
  x : ℚ
  y : ℚ
deriving DecidableEq, Repr

/-- A single pen/eraser stroke (`image.Stroke`). -/
structure Stroke where
  tool : String
  color : String
  brushSize : ℚ
  points : List Point
deriving DecidableEq, Repr

/-- The cropping area (`image.CropRegion`); all four coordinates are Go
`int`s, ` ratio` is an advisory tag that serializes with `omitempty`. -/
structure CropRegion where
  x : ℤ
  y : ℤ
  width : ℤ
  height : ℤ
  ratioTag : String
deriving DecidableEq, Repr

/-- History payload: Go stores `EditAction.Data` as `interface{}`; the
program puts a `Stroke` value there for stroke/erase actions, a
`*image.CropRegion` for crops pushed by `ApplyCrop`, and leaves it `nil`
for crops pushed by `applyCropToImage`. -/
inductive ActionData where
  | nilData : ActionData
  | strokeData : Stroke → ActionData
  | cropData : CropRegion → ActionData
deriving DecidableEq, Repr

/-- An undoable action for the history stack (`image.EditAction`);
`typ` embeds the Go field `Type` (a string tag). -/
structure EditAction where
  typ : String
  data : ActionData
  description : String
deriving DecidableEq, Repr

/-- A non-destructive editing session (`image.EditSession`).  The Go
`Crop *CropRegion` pointer is an `Option`; the Go `Strokes []Stroke`
slice is a `List` (nil and empty slices are both `[]`). -/
structure EditSession where
  version : String
  imagePath : String
  crop : Option CropRegion
  strokes : List Stroke
  historyPos : ℤ
deriving DecidableEq, Repr

/-- `image.NewEditSession`: a fresh empty session for an image. -/
def NewEditSession (imagePath : String) : EditSession :=
  { version := "1.0"
    imagePath := imagePath
    crop := none
    strokes := []
    historyPos := 0 }

/-- `EditSession.AddStroke`: append and move `HistoryPos` to the new
length. -/
def EditSession.AddStroke (s : EditSession) (st : Stroke) : EditSession :=
  let strokes := s.strokes ++ [st]
  { s with strokes := strokes, historyPos := (strokes.length : ℤ) }

/-- `EditSession.SetCrop` (the Go method stores a non-nil pointer). -/
def EditSession.SetCrop (s : EditSession) (c : CropRegion) : EditSession :=
  { s with crop := some c }

/-- `EditSession.ClearCrop`. -/
def EditSession.ClearCrop (s : EditSession) : EditSession :=
  { s with crop := none }

/-- `EditSession.HasEdits`. -/
def EditSession.HasEdits (s : EditSession) : Bool :=
  s.crop.isSome || decide (s.strokes.length > 0)

/-- `EditSession.Clear`. -/
def EditSession.Clear (s : EditSession) : EditSession :=
  { s with crop := none, strokes := [], historyPos := 0 }

/-! ### Go `path/filepath` on Unix paths

`SessionFileName` uses `filepath.Dir`, `filepath.Base`, `filepath.Ext`,
`strings.TrimSuffix` and `filepath.Join`.  `Dir` and `Join` call
`filepath.Clean`, embedded here by its documented semantics: collapse
separators, drop `.` elements, resolve `..` against a preceding element
(dropping a leading `..` when the path is rooted), returning `.` for an
empty result. -/

/-- Split a path at `/` separators (the semantics of
`strings.Split(p, "/")`, specialised to the one-byte separator).  `acc`
collects the characters of the current element in reverse. -/
def splitSlashAux : List Char → List Char → List String
  | acc, [] => [String.mk acc.reverse]
  | acc, c :: rest =>
    if c = '/' then String.mk acc.reverse :: splitSlashAux [] rest
    else splitSlashAux (c :: acc) rest

/-- Split a path into its `/`-separated pieces. -/
def splitSlash (p : String) : List String :=
  splitSlashAux [] p.data

/-- Join path elements with single `/` separators. -/
def joinSlash : List String → String
  | [] => ""
  | [s] => s
  | s :: rest => s ++ "/" ++ joinSlash rest

/-- Stack-based processing of path elements for `Clean`: `acc` holds the
already-emitted elements in reverse. -/
def cleanElems (rooted : Bool) : List String → List String → List String
  | acc, [] => acc.reverse
  | acc, c :: rest =>
    if c = ".." then
      match acc with
      | [] => cleanElems rooted (if rooted then [] else [".."]) rest
      | a :: tl =>
        if a = ".." then cleanElems rooted (c :: acc) rest
        else cleanElems rooted tl rest
    else cleanElems rooted (c :: acc) rest

/-- Whether a Unix path is rooted (begins with a separator). -/
def isRooted (p : String) : Bool :=
  match p.data with
  | '/' :: _ => true
  | _ => false

/-- `filepath.Clean` for Unix paths. -/
def filepathClean (p : String) : String :=
  if p = "" then "." else
  let rooted := isRooted p
  let elems := (splitSlash p).filter (fun c => ¬(c = "" ∨ c = "."))
  let out := joinSlash (cleanElems rooted [] elems)
  if rooted then "/" ++ out
  else if out = "" then "." else out

/-- Helper for `filepath.Ext`: scan the reversed character list from the
end of the path; the extension starts at the final dot of the final
element (empty if there is none); `acc` collects the scanned tail in
original order. -/
def extAux : List Char → List Char → List Char
  | _, [] => []
  | acc, c :: rest =>
    if c = '/' then []
    else if c = '.' then c :: acc
    else extAux (c :: acc) rest

/-- `filepath.Ext` for Unix paths. -/
def filepathExt (p : String) : String :=
  String.mk (extAux [] p.data.reverse)

/-- `filepath.Base` for Unix paths: strip trailing separators, then keep
everything after the last separator; `"."` for the empty path, `"/"`
when the path is all separators. -/
def filepathBase (p : String) : String :=
  if p = "" then "." else
  let r := p.data.reverse.dropWhile (fun c => c = '/')
  let lastComp := r.takeWhile (fun c => ¬(c = '/'))
  if lastComp = [] then "/" else String.mk lastComp.reverse

/-- `filepath.Dir` for Unix paths: everything up to and including the
final separator, cleaned. -/
def filepathDir (p : String) : String :=
  filepathClean (String.mk ((p.data.reverse.dropWhile (fun c => ¬(c = '/'))).reverse))

/-- `strings.TrimSuffix`: cut the suffix when present, else return the
string unchanged. -/
def trimSuffix (s suf : String) : String :=
  let n := s.data.length
  let m := suf.data.length
  if m ≤ n ∧ s.data.drop (n - m) = suf.data then String.mk (s.data.take (n - m))
  else s

/-- `filepath.Join` on two elements: skip a leading empty element, then
join with the separator and clean. -/
def filepathJoin (a b : String) : String :=
  if a = "" then (if b = "" then "" else filepathClean b)
  else filepathClean (a ++ "/" ++ b)

/-- `image.SessionFileName`: the sidecar filename for an image path. -/
def SessionFileName (imagePath : String) : String :=
  let dir := filepathDir imagePath
  let base := filepathBase imagePath
  let ext := filepathExt base
  let name := trimSuffix base ext
  filepathJoin dir ("." ++ name ++ ".frame-edits.json")

/-- The base name with the extension stripped — the part of the image
path (besides its directory) that determines the sidecar name. -/
def sessionStem (imagePath : String) : String :=
  trimSuffix (filepathBase imagePath) (filepathExt (filepathBase imagePath))

/-! ### Sidecar JSON persistence

`SaveEditSession` serializes the session with `encoding/json` (struct
tags `version`, `image_path`, `crop,omitempty`, `strokes,omitempty`,
`history_pos`; inside `CropRegion` the tag ` ratio,omitempty`, inside
`Stroke` the tags `tool`, `color`, `brush_size`, `points`) and writes it
to `SessionFileName(ImagePath)`; `LoadEditSession` reads that file and
unmarshals it.  JSON documents are embedded as a value tree; `omitempty`
omits a nil pointer, a zero-length slice, and an empty string.  On the
decode side, `encoding/json` leaves a missing field at its zero value,
and fails on a type mismatch (including a fractional number for an `int`
field).  Serialization to bytes and parsing back is value-faithful and
is elided; JSON `null` never occurs in sidecars the program writes and
is left out of the tree. -/

/-- A JSON value (numbers as exact rationals, matching the `float64`
model). -/
inductive JValue where
  | jstr : String → JValue
  | jnum : ℚ → JValue
  | jbool : Bool → JValue
  | jarr : List JValue → JValue
  | jobj : List (String × JValue) → JValue

/-- Field lookup in a JSON object: with duplicate keys `encoding/json`
keeps the last value, so look up in the reversed field list. -/
def jlookup (fs : List (String × JValue)) (k : String) : Option JValue :=
  match fs with
  | [] => none
  | p :: rest =>
    match jlookup rest k with
    | some v => some v
    | none => if p.1 = k then some p.2 else none

/-- Whether a marshalled object carries a field. -/
def jhasKey (v : JValue) (k : String) : Bool :=
  match v with
  | .jobj fs => fs.any (fun p => p.1 = k)
  | _ => false

/-- Marshal an `image.Point`. -/
def marshalPoint (p : Point) : JValue :=
  .jobj [("x", .jnum p.x), ("y", .jnum p.y)]

/-- Marshal an `image.Stroke`. -/
def marshalStroke (s : Stroke) : JValue :=
  .jobj [("tool", .jstr s.tool), ("color", .jstr s.color),
         ("brush_size", .jnum s.brushSize),
         ("points", .jarr (s.points.map marshalPoint))]

/-- Marshal an `image.CropRegion` (the ` ratio` tag has `omitempty`). -/
def marshalCrop (c : CropRegion) : JValue :=
  .jobj ([("x", .jnum (c.x : ℚ)), ("y", .jnum (c.y : ℚ)),
          ("width", .jnum (c.width : ℚ)), ("height", .jnum (c.height : ℚ))] ++
         (if c.ratioTag = "" then [] else [("ratio", .jstr c.ratioTag)]))

/-- Marshal an `image.EditSession` (`crop` and `strokes` have
`omitempty`: a nil crop pointer and a zero-length stroke slice are
omitted). -/
def marshalSession (s : EditSession) : JValue :=
  .jobj ([("version", .jstr s.version), ("image_path", .jstr s.imagePath)] ++
         (match s.crop with
          | none => []
          | some c => [("crop", marshalCrop c)]) ++
         (match s.strokes with
          | [] => []
          | _ => [("strokes", .jarr (s.strokes.map marshalStroke))]) ++
         [("history_pos", .jnum (s.historyPos : ℚ))])

/-- Decode a string field: absent keeps the zero value `""`, a non-string
value is a type error. -/
def decStrField (v : Option JValue) : Option String :=
  match v with
  | none => some ""
  | some (.jstr s) => some s
  | some _ => none

/-- Decode a `float64` field: absent keeps the zero value `0`. -/
def decNumField (v : Option JValue) : Option ℚ :=
  match v with
  | none => some (0 : ℚ)
  | some (.jnum q) => some q
  | some _ => none

/-- Decode an `int` field: absent keeps `0`; a fractional JSON number is
a decode error. -/
def decIntField (v : Option JValue) : Option ℤ :=
  match v with
  | none => some (0 : ℤ)
  | some (.jnum q) => if q.den = 1 then some q.num else none
  | some _ => none

/-- Unmarshal an `image.Point`. -/
def unmarshalPoint (v : JValue) : Option Point :=
  match v with
  | .jobj fs =>
    match decNumField (jlookup fs "x"), decNumField (jlookup fs "y") with
    | some x, some y => some ⟨x, y⟩
    | _, _ => none
  | _ => none

/-- Unmarshal every element of a JSON array, failing if any element
fails. -/
def unmarshalList {α : Type} (dec : JValue → Option α) : List JValue → Option (List α)
  | [] => some []
  | v :: vs =>
    match dec v, unmarshalList dec vs with
    | some a, some l => some (a :: l)
    | _, _ => none

/-- Unmarshal an `image.Stroke`. -/
def unmarshalStroke (v : JValue) : Option Stroke :=
  match v with
  | .jobj fs =>
    match decStrField (jlookup fs "tool"), decStrField (jlookup fs "color"),
          decNumField (jlookup fs "brush_size"),
          (match jlookup fs "points" with
           | none => some ([] : List Point)
           | some (.jarr vs) => unmarshalList unmarshalPoint vs
           | some _ => none) with
    | some t, some c, some b, some ps => some ⟨t, c, b, ps⟩
    | _, _, _, _ => none
  | _ => none

/-- Unmarshal an `image.CropRegion`. -/
def unmarshalCrop (v : JValue) : Option CropRegion :=
  match v with
  | .jobj fs =>
    match decIntField (jlookup fs "x"), decIntField (jlookup fs "y"),
          decIntField (jlookup fs "width"), decIntField (jlookup fs "height"),
          decStrField (jlookup fs "ratio") with
    | some x, some y, some w, some h, some r => some ⟨x, y, w, h, r⟩
    | _, _, _, _, _ => none
  | _ => none

/-- Unmarshal an `image.EditSession` from a JSON document; anything but
an object (or any mistyped field) is a parse error. -/
def unmarshalSession (v : JValue) : Option EditSession :=
  match v with
  | .jobj fs =>
    match decStrField (jlookup fs "version"), decStrField (jlookup fs "image_path"),
          (match jlookup fs "crop" with
           | none => some (none : Option CropRegion)
           | some cv => (unmarshalCrop cv).map some),
          (match jlookup fs "strokes" with
           | none => some ([] : List Stroke)
           | some (.jarr vs) => unmarshalList unmarshalStroke vs
           | some _ => none),
          decIntField (jlookup fs "history_pos") with
    | some ver, some ip, some cr, some st, some hp => some ⟨ver, ip, cr, st, hp⟩
    | _, _, _, _, _ => none
  | _ => none

/-- Outcome of `os.ReadFile` on the sidecar path. -/
inductive ReadResult where
  | notFound : ReadResult
  | readFailure : ReadResult
  | content : JValue → ReadResult

/-- The errors `LoadEditSession` can return: a surfaced read failure or a
`json.Unmarshal` failure. -/
inductive LoadError where
  | ioError : LoadError
  | parseError : LoadError
deriving DecidableEq

/-- `image.LoadEditSession` over an explicit filesystem (a map from path
to read outcome): a missing sidecar yields a fresh empty session, a read
failure is surfaced, unparseable content is a parse error. -/
def LoadEditSession (imagePath : String) (fsys : String → ReadResult) :
    Except LoadError EditSession :=
  match fsys (SessionFileName imagePath) with
  | .notFound => .ok (NewEditSession imagePath)
  | .readFailure => .error .ioError
  | .content j =>
    match unmarshalSession j with
    | none => .error .parseError
    | some s => .ok s

/-- `image.SaveEditSession` over an explicit filesystem: write the
marshalled session at the sidecar path derived from the session's image
path. -/
def SaveEditSession (s : EditSession) (fsys : String → ReadResult) :
    String → ReadResult :=
  fun p => if p = SessionFileName s.imagePath then .content (marshalSession s) else fsys p

/-! ### The editor view (`gui.EditorView`)

The state the editing methods read and write.  The three pixbuf pointers
(`originalBuf`, `preCropBuf`, `postCropBuf`) are external image buffers;
the methods only test them against nil and overwrite them wholesale, so
they are modelled by presence flags.  Widget fields, callbacks and the
tool buttons are untouched by the modelled methods and are left out. -/

/-- Mutable editor state. -/
structure EditorView where
  brushSize : ℚ
  brushColor : String
  isDrawing : Bool
  session : EditSession
  undoStack : List EditAction
  redoStack : List EditAction
  cropStartX : ℚ
  cropStartY : ℚ
  cropEndX : ℚ
  cropEndY : ℚ
  isCropping : Bool
  cropActive : Bool
  hasOriginalBuf : Bool
  hasPreCropBuf : Bool
  hasPostCropBuf : Bool
deriving DecidableEq, Repr

/-- `EditorView.pushUndo`: append to the undo stack and unconditionally
reset the redo stack to a fresh empty slice. -/
def EditorView.pushUndo (e : EditorView) (action : EditAction) : EditorView :=
  { e with undoStack := e.undoStack ++ [action], redoStack := [] }

/-- The per-type inverse effect applied by `EditorView.Undo` after the
stacks have been shifted. -/
def applyUndo (e : EditorView) (action : EditAction) : EditorView :=
  match action.typ with
  | "stroke" =>
    if e.session.strokes.length > 0 then
      { e with session := { e.session with strokes := e.session.strokes.dropLast } }
    else e
  | "erase" =>
    match action.data with
    | .strokeData s => { e with session := e.session.AddStroke s }
    | _ => e
  | "crop" =>
    let e1 :=
      if e.hasPreCropBuf then
        { e with hasOriginalBuf := true, hasPreCropBuf := false }
      else e
    { e1 with session := e1.session.ClearCrop, cropActive := false }
  | _ => e

/-- `EditorView.Undo`: a no-op on an empty undo stack; otherwise pop the
last action, move it to the redo stack, and apply its inverse effect. -/
def EditorView.Undo (e : EditorView) : EditorView :=
  match e.undoStack.getLast? with
  | none => e
  | some action =>
    applyUndo
      { e with undoStack := e.undoStack.dropLast,
               redoStack := e.redoStack ++ [action] } action

/-- The loop in `Redo`'s erase case: remove the first stroke matching the
payload by point-count and color (then `break`). -/
def removeFirstMatch : List Stroke → Stroke → List Stroke
  | [], _ => []
  | s :: rest, target =>
    if s.points.length = target.points.length ∧ s.color = target.color then rest
    else s :: removeFirstMatch rest target

/-- The per-type forward effect applied by `EditorView.Redo` after the
stacks have been shifted. -/
def applyRedo (e : EditorView) (action : EditAction) : EditorView :=
  match action.typ with
  | "stroke" =>
    match action.data with
    | .strokeData s => { e with session := e.session.AddStroke s }
    | _ => e
  | "erase" =>
    match action.data with
    | .strokeData s =>
      { e with session := { e.session with strokes := removeFirstMatch e.session.strokes s } }
    | _ => e
  | "crop" =>
    let e1 :=
      if e.hasPostCropBuf then { e with hasPreCropBuf := true } else e
    let e2 :=
      match action.data with
      | .cropData c => { e1 with session := e1.session.SetCrop c }
      | _ => e1
    { e2 with cropActive := true }
  | _ => e

/-- `EditorView.Redo`: a no-op on an empty redo stack; otherwise pop the
last undone action, move it back to the undo stack, and re-apply it. -/
def EditorView.Redo (e : EditorView) : EditorView :=
  match e.redoStack.getLast? with
  | none => e
  | some action =>
    applyRedo
      { e with redoStack := e.redoStack.dropLast,
               undoStack := e.undoStack ++ [action] } action

/-- The history entry `endStroke` pushes for a committed pen stroke. -/
def penStrokeAction (s : Stroke) : EditAction :=
  ⟨"stroke", .strokeData s, "Draw stroke"⟩

/-- One pen-stroke action as the claims describe it: `AddStroke` on the
session followed by pushing a `stroke` entry carrying that stroke (the
session mutation and history push performed by `endStroke`). -/
def EditorView.commitStroke (e : EditorView) (s : Stroke) : EditorView :=
  ({ e with session := e.session.AddStroke s }).pushUndo (penStrokeAction s)

/-- A sequence of pen-stroke actions, first stroke first. -/
def EditorView.commitStrokes (e : EditorView) (ss : List Stroke) : EditorView :=
  ss.foldl EditorView.commitStroke e

/-- Iterated `Undo`. -/
def undoTimes (e : EditorView) : ℕ → EditorView
  | 0 => e
  | n + 1 => undoTimes e.Undo n

/-! ### Eraser hit-testing (`EditorView.eraseStrokesAt`) -/

/-- Whether the eraser at `(x, y)` hits a stroke: some point of the
stroke lies within `eraserRadius + stroke.brushSize/2` of the pointer,
tested on squared distances (the inner loop breaks at the first hit). -/
def eraseHit (eraserRadius x y : ℚ) (stroke : Stroke) : Bool :=
  stroke.points.any fun pt =>
    let dx := pt.x - x
    let dy := pt.y - y
    let dist := dx * dx + dy * dy
    let threshold := (eraserRadius + stroke.brushSize / 2) * (eraserRadius + stroke.brushSize / 2)
    decide (dist < threshold)

/-- The default `Stroke` value (never observed: the indices below are in
bounds). -/
def strokeZero : Stroke := ⟨"", "", 0, []⟩

/-- Go's `append(s[:idx], s[idx+1:]...)`: drop the element at `idx`. -/
def removeAt (l : List Stroke) (i : ℕ) : List Stroke :=
  l.take i ++ l.drop (i + 1)

/-- The removal loop of `eraseStrokesAt`: for each index (visited in the
given order), push an `erase` entry carrying the stroke currently at
that index, then remove it. -/
def eraseLoop : EditorView → List ℕ → EditorView
  | e, [] => e
  | e, idx :: rest =>
    let act : EditAction := ⟨"erase", .strokeData (e.session.strokes.getD idx strokeZero), "Erase stroke"⟩
    let e1 := e.pushUndo act
    let e2 := { e1 with session := { e1.session with strokes := removeAt e1.session.strokes idx } }
    eraseLoop e2 rest

/-- `EditorView.eraseStrokesAt`: collect the indices of all strokes hit
at `(x, y)` (ascending), then process them in reverse (descending) so
earlier removals cannot invalidate later indices.  The eraser radius is
half the editor's brush size. -/
def EditorView.eraseStrokesAt (e : EditorView) (x y : ℚ) : EditorView :=
  if e.session.strokes.length = 0 then e
  else
    let eraserRadius := e.brushSize / 2
    let strokesToRemove := (List.range e.session.strokes.length).filter
      (fun i => eraseHit eraserRadius x y (e.session.strokes.getD i strokeZero))
    eraseLoop e strokesToRemove.reverse

/-! ### Crop application (`EditorView.applyCropToImage`) -/

/-- Go's `int(f)` conversion from `float64`: truncation toward zero. -/
def trunc (q : ℚ) : ℤ :=
  if 0 ≤ q then ⌊q⌋ else -⌊-q⌋

/-- The external inputs `applyCropToImage` reads: the drawing-area
allocation, the pixbuf dimensions, and whether `NewSubpixbuf` returned a
buffer. -/
structure CropEnv where
  areaW : ℚ
  areaH : ℚ
  imgW : ℤ
  imgH : ℤ
  subpixbufOk : Bool
deriving DecidableEq, Repr

/-- The coordinate conversion and clamping in `applyCropToImage`
(lines computing `screenX1 … cropH`): map the selection rectangle from
screen space to image space through the fit-scale and centering offset,
clamp the origin into `[0, dim-1]`, and clamp the extent to stay within
the image with a floor of 1. -/
def computeCropRegion (cropStartX cropStartY cropEndX cropEndY areaW areaH imgW imgH : ℚ) :
    CropRegion :=
  let screenX1 := min cropStartX cropEndX
  let screenY1 := min cropStartY cropEndY
  let screenX2 := max cropStartX cropEndX
  let screenY2 := max cropStartY cropEndY
  let scaleToFit := min (areaW / imgW) (areaH / imgH)
  let displayW := imgW * scaleToFit
  let displayH := imgH * scaleToFit
  let offsetX := (areaW - displayW) / 2
  let offsetY := (areaH - displayH) / 2
  let imgX1 := (screenX1 - offsetX) / scaleToFit
  let imgY1 := (screenY1 - offsetY) / scaleToFit
  let imgX2 := (screenX2 - offsetX) / scaleToFit
  let imgY2 := (screenY2 - offsetY) / scaleToFit
  let cropX := trunc (max 0 (min imgX1 (imgW - 1)))
  let cropY := trunc (max 0 (min imgY1 (imgH - 1)))
  let cropW := trunc (max 1 (min (imgX2 - imgX1) (imgW - (cropX : ℚ))))
  let cropH := trunc (max 1 (min (imgY2 - imgY1) (imgH - (cropY : ℚ))))
  ⟨cropX, cropY, cropW, cropH, ""⟩

/-- `EditorView.cancelCrop`: reset the selection without touching the
session. -/
def EditorView.cancelCrop (e : EditorView) : EditorView :=
  { e with cropActive := false, isCropping := false,
           cropStartX := 0, cropStartY := 0, cropEndX := 0, cropEndY := 0 }

/-- `EditorView.applyCropToImage`: abort when no selection is active or
no image buffer is loaded; snapshot the pre-crop buffer; convert and
clamp the selection; abort on a degenerate region or a failed
`NewSubpixbuf`; otherwise install the cropped buffer, store the region
in the session, push a `crop` history entry (with a nil payload), and
reset the selection. -/
def EditorView.applyCropToImage (e : EditorView) (env : CropEnv) : EditorView :=
  if e.cropActive = false ∨ e.hasOriginalBuf = false then e
  else
    let e1 := { e with hasPreCropBuf := true }
    let r := computeCropRegion e.cropStartX e.cropStartY e.cropEndX e.cropEndY
      env.areaW env.areaH (env.imgW : ℚ) (env.imgH : ℚ)
    if r.width ≤ 0 ∨ r.height ≤ 0 then e1
    else if env.subpixbufOk = false then e1
    else
      let e2 := { e1 with hasPostCropBuf := true,
                          session := e1.session.SetCrop ⟨r.x, r.y, r.width, r.height, ""⟩ }
      let e3 := e2.pushUndo ⟨"crop", .nilData, "Crop image"⟩
      e3.cancelCrop

/-! ### Serialization round-trip lemmas -/

lemma unmarshalPoint_marshalPoint (p : Point) : unmarshalPoint (marshalPoint p) = some p := by
  simp [unmarshalPoint, marshalPoint, jlookup, decNumField]

lemma unmarshalList_map {α : Type} (dec : JValue → Option α) (enc : α → JValue)
    (l : List α) (h : ∀ a ∈ l, dec (enc a) = some a) :
    unmarshalList dec (l.map enc) = some l := by
  induction l with
  | nil => rfl
  | cons a t ih =>
    simp only [List.map_cons, unmarshalList]
    rw [h a (List.mem_cons_self a t), ih (fun b hb => h b (List.mem_cons_of_mem a hb))]

lemma unmarshalStroke_marshalStroke (s : Stroke) :
    unmarshalStroke (marshalStroke s) = some s := by
  obtain ⟨t, c, b, ps⟩ := s
  simp [unmarshalStroke, marshalStroke, jlookup, decStrField, decNumField,
        unmarshalList_map unmarshalPoint marshalPoint ps
          (fun a _ => unmarshalPoint_marshalPoint a)]

lemma unmarshalCrop_marshalCrop (c : CropRegion) : unmarshalCrop (marshalCrop c) = some c := by
  obtain ⟨x, y, w, h, r⟩ := c
  by_cases hr : r = ""
  · subst hr
    simp [unmarshalCrop, marshalCrop, jlookup, decIntField, decStrField]
  · simp [unmarshalCrop, marshalCrop, jlookup, decIntField, decStrField, hr]

lemma unmarshalSession_marshalSession (s : EditSession) :
    unmarshalSession (marshalSession s) = some s := by
  obtain ⟨v, ip, cr, st, hp⟩ := s
  have hst := unmarshalList_map unmarshalStroke marshalStroke st
    (fun a _ => unmarshalStroke_marshalStroke a)
  cases cr with
  | none =>
    cases st with
    | nil => simp [unmarshalSession, marshalSession, jlookup, decStrField, decIntField]
    | cons a tl =>
      have hst2 : unmarshalList unmarshalStroke (marshalStroke a :: List.map marshalStroke tl) =
          some (a :: tl) := by simpa using hst
      simp [unmarshalSession, marshalSession, jlookup, decStrField, decIntField, hst2]
  | some c =>
    cases st with
    | nil =>
      simp [unmarshalSession, marshalSession, jlookup, decStrField, decIntField,
            unmarshalCrop_marshalCrop c]
    | cons a tl =>
      have hst2 : unmarshalList unmarshalStroke (marshalStroke a :: List.map marshalStroke tl) =
          some (a :: tl) := by simpa using hst
      simp [unmarshalSession, marshalSession, jlookup, decStrField, decIntField, hst2,
            unmarshalCrop_marshalCrop c]

/-! ### Claim theorems -/

/-- Claim C3: saving an edit session and loading it back from the same
image path reproduces the session exactly, and the serialized object
carries the `crop` key exactly when a crop is set and the `strokes` key
exactly when the stroke list is non-empty (no `null`/empty-array
placeholders are emitted). -/
theorem save_load_roundtrip (s : EditSession) (fsys : String → ReadResult) :
    LoadEditSession s.imagePath (SaveEditSession s fsys) = .ok s ∧
    (jhasKey (marshalSession s) "crop" = true ↔ s.crop ≠ none) ∧
    (jhasKey (marshalSession s) "strokes" = true ↔ s.strokes ≠ []) := by
  refine ⟨?_, ?_, ?_⟩
  · simp [LoadEditSession, SaveEditSession, unmarshalSession_marshalSession s]
  · cases hc : s.crop <;> cases hst : s.strokes <;>
      simp [jhasKey, marshalSession, hc, hst]
  · cases hc : s.crop <;> cases hst : s.strokes <;>
      simp [jhasKey, marshalSession, hc, hst]

/-- Claim C6: loading with no sidecar present returns a fresh empty
session (not an error); loading a sidecar that fails to unmarshal
returns an error and no partial session; any other read failure is
surfaced to the caller. -/
theorem load_missing_invalid_policy (p : String) (fsys : String → ReadResult) :
    (fsys (SessionFileName p) = .notFound →
      LoadEditSession p fsys = .ok (NewEditSession p) ∧
      (NewEditSession p).crop = none ∧ (NewEditSession p).strokes = []) ∧
    (∀ j, fsys (SessionFileName p) = .content j → unmarshalSession j = none →
      LoadEditSession p fsys = .error .parseError) ∧
    (fsys (SessionFileName p) = .readFailure →
      LoadEditSession p fsys = .error .ioError) := by
  refine ⟨fun h => ?_, fun j hj hu => ?_, fun h => ?_⟩
  · exact ⟨by simp [LoadEditSession, h], rfl, rfl⟩
  · simp [LoadEditSession, hj, hu]
  · simp [LoadEditSession, h]

/-- Witness for C6 at concrete inputs. -/
theorem load_missing_invalid_policy_witness :
    LoadEditSession "/a/b.jpg" (fun _ => ReadResult.notFound) = .ok (NewEditSession "/a/b.jpg") ∧
    LoadEditSession "/a/b.jpg" (fun _ => ReadResult.content (JValue.jstr "oops")) =
      .error .parseError ∧
    LoadEditSession "/a/b.jpg" (fun _ => ReadResult.readFailure) = .error .ioError :=
  ⟨((load_missing_invalid_policy "/a/b.jpg" (fun _ => ReadResult.notFound)).1 rfl).1,
   (load_missing_invalid_policy "/a/b.jpg" (fun _ => ReadResult.content (JValue.jstr "oops"))).2.1
     (JValue.jstr "oops") rfl rfl,
   (load_missing_invalid_policy "/a/b.jpg" (fun _ => ReadResult.readFailure)).2.2 rfl⟩

/-- Claim C7: pushing a new action appends it to the undo stack and
unconditionally empties the redo stack, regardless of the prior contents
of either stack. -/
theorem pushUndo_appends_and_clears_redo (e : EditorView) (a : EditAction) :
    (e.pushUndo a).undoStack = e.undoStack ++ [a] ∧ (e.pushUndo a).redoStack = [] :=
  ⟨rfl, rfl⟩

/-- Counterexample for C9: two distinct image paths that differ only in
their extension map to the same sidecar path, so sidecar naming is not
collision-free across image paths. -/
theorem session_file_name_not_injective :
    SessionFileName "/pics/foo.jpg" = SessionFileName "/pics/foo.png" ∧
    ("/pics/foo.jpg" : String) ≠ "/pics/foo.png" :=
  ⟨by decide, by decide⟩

/-- Claim C9 as amended: the sidecar name is deterministic and follows
the naming formula — same directory, dot-prefixed, extension swapped for
`.frame-edits.json` (`foo.jpg` in `D` maps to `D/.foo.frame-edits.json`)
— and it depends only on the image's directory and its base name without
extension, so any two paths agreeing on those (in particular paths
differing only in extension) share a sidecar; it is not collision-free
per image path. -/
theorem session_file_name_amended :
    SessionFileName "/pics/foo.jpg" = "/pics/.foo.frame-edits.json" ∧
    SessionFileName "pics/bar.png" = "pics/.bar.frame-edits.json" ∧
    (∀ p₁ p₂ : String, filepathDir p₁ = filepathDir p₂ → sessionStem p₁ = sessionStem p₂ →
      SessionFileName p₁ = SessionFileName p₂) := by
  refine ⟨by decide, by decide, fun p₁ p₂ hd hs => ?_⟩
  show filepathJoin (filepathDir p₁) ("." ++ sessionStem p₁ ++ ".frame-edits.json") =
       filepathJoin (filepathDir p₂) ("." ++ sessionStem p₂ ++ ".frame-edits.json")
  rw [hd, hs]

/-- Witness for the amended C9 at concrete inputs. -/
theorem session_file_name_amended_witness :
    SessionFileName "/shots/a.jpg" = SessionFileName "/shots/a.webp" :=
  session_file_name_amended.2.2 "/shots/a.jpg" "/shots/a.webp" (by decide) (by decide)

/-! ### Undo/redo lemmas -/

lemma commitStrokes_session_strokes (ss : List Stroke) : ∀ e : EditorView,
    (e.commitStrokes ss).session.strokes = e.session.strokes ++ ss := by
  induction ss with
  | nil => intro e; simp [EditorView.commitStrokes]
  | cons s t ih =>
    intro e
    have h : e.commitStrokes (s :: t) = (e.commitStroke s).commitStrokes t := rfl
    rw [h, ih]
    simp [EditorView.commitStroke, EditorView.pushUndo, EditSession.AddStroke]

lemma commitStrokes_undoStack (ss : List Stroke) : ∀ e : EditorView,
    (e.commitStrokes ss).undoStack = e.undoStack ++ ss.map penStrokeAction := by
  induction ss with
  | nil => intro e; simp [EditorView.commitStrokes]
  | cons s t ih =>
    intro e
    have h : e.commitStrokes (s :: t) = (e.commitStroke s).commitStrokes t := rfl
    rw [h, ih]
    simp [EditorView.commitStroke, EditorView.pushUndo]

lemma applyUndo_pen (e : EditorView) (s : Stroke) (l : List Stroke)
    (hS : e.session.strokes = l ++ [s]) :
    applyUndo e (penStrokeAction s) =
      { e with session := { e.session with strokes := l } } := by
  have hpos : e.session.strokes.length > 0 := by simp [hS]
  simp only [applyUndo, penStrokeAction, if_pos hpos]
  rw [hS]
  simp [List.dropLast_concat]

lemma Undo_pen (e : EditorView) (s : Stroke) (U : List EditAction) (l : List Stroke)
    (hU : e.undoStack = U ++ [penStrokeAction s]) (hS : e.session.strokes = l ++ [s]) :
    (e.Undo).undoStack = U ∧ (e.Undo).session.strokes = l := by
  have hget : e.undoStack.getLast? = some (penStrokeAction s) := by
    rw [hU]; exact List.getLast?_concat _
  have h1 : e.Undo = applyUndo
      { e with undoStack := e.undoStack.dropLast,
               redoStack := e.redoStack ++ [penStrokeAction s] } (penStrokeAction s) := by
    rw [EditorView.Undo, hget]
  rw [h1, applyUndo_pen _ s l (by simpa using hS)]
  constructor
  · simp [hU, List.dropLast_concat]
  · simp

lemma undoTimes_strokes (ss : List Stroke) :
    ∀ (e : EditorView) (U : List EditAction) (S : List Stroke),
    e.undoStack = U ++ ss.map penStrokeAction → e.session.strokes = S ++ ss →
    (undoTimes e ss.length).session.strokes = S := by
  induction ss using List.reverseRecOn with
  | nil =>
    intro e U S hU hS
    simpa [undoTimes] using hS
  | append_singleton t s ih =>
    intro e U S hU hS
    have hU' : e.undoStack = (U ++ t.map penStrokeAction) ++ [penStrokeAction s] := by
      simpa [List.append_assoc] using hU
    have hS' : e.session.strokes = (S ++ t) ++ [s] := by
      simpa [List.append_assoc] using hS
    obtain ⟨hu2, hs2⟩ := Undo_pen e s (U ++ t.map penStrokeAction) (S ++ t) hU' hS'
    have hlen : (t ++ [s]).length = t.length + 1 := by simp
    rw [hlen]
    exact ih e.Undo U S hu2 (by simpa using hs2)

/-- Claim C1: a sequence of `n` pen-stroke actions (each an `AddStroke`
on the session followed by pushing a `stroke` entry) followed by `n`
calls to `Undo` returns the session's stroke list to its exact
pre-sequence state. -/
theorem undo_inverts_pen_strokes (e : EditorView) (ss : List Stroke) :
    (undoTimes (e.commitStrokes ss) ss.length).session.strokes = e.session.strokes :=
  undoTimes_strokes ss (e.commitStrokes ss) e.undoStack e.session.strokes
    (commitStrokes_undoStack ss e) (commitStrokes_session_strokes ss e)

/-! ### Eraser lemmas -/

/-- The pure-list effect of the removal loop: drop the indexed elements
one by one. -/
def removeDescending : List Stroke → List ℕ → List Stroke
  | l, [] => l
  | l, i :: rest => removeDescending (removeAt l i) rest

lemma eraseLoop_strokes (idxs : List ℕ) : ∀ e : EditorView,
    (eraseLoop e idxs).session.strokes = removeDescending e.session.strokes idxs := by
  induction idxs with
  | nil => intro e; rfl
  | cons i rest ih =>
    intro e
    simp only [eraseLoop, removeDescending]
    rw [ih]
    rfl

lemma removeDescending_append (xs ys : List ℕ) : ∀ l : List Stroke,
    removeDescending l (xs ++ ys) = removeDescending (removeDescending l xs) ys := by
  induction xs with
  | nil => intro l; rfl
  | cons i rest ih =>
    intro l
    simp only [List.cons_append, removeDescending]
    exact ih _

lemma removeAt_succ (a : Stroke) (l : List Stroke) (i : ℕ) :
    removeAt (a :: l) (i + 1) = a :: removeAt l i := by
  simp [removeAt]

lemma removeDescending_map_succ (idxs : List ℕ) : ∀ (a : Stroke) (l : List Stroke),
    removeDescending (a :: l) (idxs.map Nat.succ) = a :: removeDescending l idxs := by
  induction idxs with
  | nil => intro a l; rfl
  | cons i rest ih =>
    intro a l
    simp only [List.map_cons, removeDescending]
    rw [show removeAt (a :: l) (Nat.succ i) = a :: removeAt l i from removeAt_succ a l i]
    exact ih a _

lemma hitIndices_cons (p : Stroke → Bool) (a : Stroke) (l : List Stroke) :
    (List.range (a :: l).length).filter (fun i => p ((a :: l).getD i strokeZero)) =
      (if p a then [0] else []) ++
        ((List.range l.length).filter (fun i => p (l.getD i strokeZero))).map Nat.succ := by
  have hcomp : (fun i => p ((a :: l).getD i strokeZero)) ∘ Nat.succ =
      (fun i => p (l.getD i strokeZero)) := by
    funext i
    simp [List.getD_cons_succ]
  rw [List.length_cons, List.range_succ_eq_map, List.filter_cons, List.filter_map, hcomp]
  cases h : p a <;> simp [List.getD_cons_zero, h]

lemma removeDescending_hit_filter (p : Stroke → Bool) : ∀ l : List Stroke,
    removeDescending l
        (((List.range l.length).filter (fun i => p (l.getD i strokeZero))).reverse) =
      l.filter (fun s => !p s) := by
  intro l
  induction l with
  | nil => rfl
  | cons a t ih =>
    rw [hitIndices_cons p a t, List.reverse_append, ← List.map_reverse,
        removeDescending_append, removeDescending_map_succ, ih]
    cases h : p a <;> simp [removeDescending, removeAt, h]

/-- What one eraser pass does to the stroke list: keep exactly the
strokes the hit-test misses, in order. -/
lemma eraseStrokesAt_strokes (e : EditorView) (x y : ℚ) :
    (e.eraseStrokesAt x y).session.strokes =
      e.session.strokes.filter (fun s => !eraseHit (e.brushSize / 2) x y s) := by
  rw [EditorView.eraseStrokesAt]
  by_cases h : e.session.strokes.length = 0
  · rw [if_pos h]
    have hnil : e.session.strokes = [] := List.length_eq_zero.mp h
    simp [hnil]
  · rw [if_neg h, eraseLoop_strokes]
    exact removeDescending_hit_filter _ e.session.strokes

/-- Claim C10: one eraser pass removes exactly the hit strokes and
preserves the relative order of all survivors — the resulting stroke
list is the filtered original, hence a sublist of it. -/
theorem erase_preserves_survivor_order (e : EditorView) (x y : ℚ) :
    (e.eraseStrokesAt x y).session.strokes =
      e.session.strokes.filter (fun s => !eraseHit (e.brushSize / 2) x y s) ∧
    List.Sublist (e.eraseStrokesAt x y).session.strokes e.session.strokes := by
  refine ⟨eraseStrokesAt_strokes e x y, ?_⟩
  rw [eraseStrokesAt_strokes e x y]
  exact List.filter_sublist _

/-- The concrete stroke of the spec's eraser scenario: brush size 4,
single point `(10, 10)`. -/
def strokeTen : Stroke := ⟨"pen", "#FF0000", 4, [⟨10, 10⟩]⟩

/-- A neutral editor state. -/
def editorBase : EditorView :=
  { brushSize := 5
    brushColor := "#000000"
    isDrawing := false
    session := NewEditSession "/a/b.jpg"
    undoStack := []
    redoStack := []
    cropStartX := 0
    cropStartY := 0
    cropEndX := 0
    cropEndY := 0
    isCropping := false
    cropActive := false
    hasOriginalBuf := true
    hasPreCropBuf := false
    hasPostCropBuf := false }

/-- An editor whose eraser radius is 3 (brush size 6) over the single
stroke `strokeTen`. -/
def eraserEditor : EditorView :=
  { editorBase with brushSize := 6,
                    session := { NewEditSession "/a/b.jpg" with strokes := [strokeTen] } }

/-- Claim C5: the eraser removes a stroke exactly when some point of the
stroke lies within `eraserRadius + brushSize/2` of the pointer, decided
by comparing squared distances; concretely, a brush-4 stroke at
`(10,10)` is removed by a radius-3 eraser at `(11,11)` but survives one
at `(50,50)`. -/
theorem eraser_hit_test_spec :
    (∀ (r x y : ℚ) (s : Stroke),
      eraseHit r x y s = true ↔
        ∃ pt ∈ s.points,
          (pt.x - x) * (pt.x - x) + (pt.y - y) * (pt.y - y) <
            (r + s.brushSize / 2) * (r + s.brushSize / 2)) ∧
    (eraserEditor.eraseStrokesAt 11 11).session.strokes = [] ∧
    (eraserEditor.eraseStrokesAt 50 50).session.strokes = [strokeTen] := by
  refine ⟨fun r x y s => ?_, ?_, ?_⟩
  · simp [eraseHit, List.any_eq_true]
  · have hhit : eraseHit ((6 : ℚ) / 2) 11 11 strokeTen = true := by
      simp [eraseHit, strokeTen]
      norm_num
    rw [eraseStrokesAt_strokes]
    simp [eraserEditor, editorBase, hhit]
  · have hmiss : eraseHit ((6 : ℚ) / 2) 50 50 strokeTen = false := by
      simp [eraseHit, strokeTen]
      norm_num
    rw [eraseStrokesAt_strokes]
    simp [eraserEditor, editorBase, hmiss]

/-- Witness for C5: the removed stroke at `(11,11)` satisfies the
distance inequality the hit-test decides. -/
theorem eraser_hit_test_spec_witness :
    ∃ pt ∈ strokeTen.points,
      (pt.x - 11) * (pt.x - 11) + (pt.y - 11) * (pt.y - 11) <
        ((3 : ℚ) + strokeTen.brushSize / 2) * ((3 : ℚ) + strokeTen.brushSize / 2) :=
  (eraser_hit_test_spec.1 3 11 11 strokeTen).mp (by simp [eraseHit, strokeTen]; norm_num)

/-! ### Crop clamping lemmas -/

lemma trunc_nonneg (q : ℚ) (h : 0 ≤ q) : trunc q = ⌊q⌋ := by
  simp [trunc, h]

lemma trunc_origin_bounds (v : ℚ) (W : ℤ) (hW : 1 ≤ W) :
    0 ≤ trunc (max 0 (min v ((W : ℚ) - 1))) ∧
    trunc (max 0 (min v ((W : ℚ) - 1))) ≤ W - 1 := by
  have hWq : (1 : ℚ) ≤ (W : ℚ) := by exact_mod_cast hW
  have h0 : (0 : ℚ) ≤ max 0 (min v ((W : ℚ) - 1)) := le_max_left _ _
  have h1 : max 0 (min v ((W : ℚ) - 1)) ≤ (W : ℚ) - 1 :=
    max_le (by linarith) (min_le_right _ _)
  rw [trunc_nonneg _ h0]
  refine ⟨Int.le_floor.mpr (by exact_mod_cast h0), ?_⟩
  have h2 := Int.floor_le_floor h1
  have heq : ⌊(W : ℚ) - 1⌋ = W - 1 := by
    rw [show ((W : ℚ) - 1) = ((W - 1 : ℤ) : ℚ) by push_cast; ring]
    exact Int.floor_intCast _
  rw [heq] at h2
  exact h2

lemma trunc_extent_bounds (u : ℚ) (W c : ℤ) (hc : c ≤ W - 1) :
    1 ≤ trunc (max 1 (min u ((W : ℚ) - (c : ℚ)))) ∧
    c + trunc (max 1 (min u ((W : ℚ) - (c : ℚ)))) ≤ W := by
  have hcq : (c : ℚ) ≤ (W : ℚ) - 1 := by exact_mod_cast hc
  have h1 : (1 : ℚ) ≤ max 1 (min u ((W : ℚ) - (c : ℚ))) := le_max_left _ _
  have h0 : (0 : ℚ) ≤ max 1 (min u ((W : ℚ) - (c : ℚ))) := by linarith
  have h2 : max 1 (min u ((W : ℚ) - (c : ℚ))) ≤ (W : ℚ) - (c : ℚ) :=
    max_le (by linarith) (min_le_right _ _)
  rw [trunc_nonneg _ h0]
  refine ⟨Int.le_floor.mpr (by exact_mod_cast h1), ?_⟩
  have h3 := Int.floor_le_floor h2
  have heq : ⌊(W : ℚ) - (c : ℚ)⌋ = W - c := by
    rw [show ((W : ℚ) - (c : ℚ)) = ((W - c : ℤ) : ℚ) by push_cast; ring]
    exact Int.floor_intCast _
  rw [heq] at h3
  omega

/-- Claim C4: for any crop selection rectangle — even one lying partly
outside the displayed image — the computed crop region is fully inside
the image bounds: the origin is clamped into `[0, dim-1]` per axis,
origin plus extent never exceeds the image dimension, and width and
height are each at least 1 pixel. -/
theorem crop_region_clamped (sx sy ex ey aW aH : ℚ) (W H : ℤ)
    (hW : 1 ≤ W) (hH : 1 ≤ H) :
    0 ≤ (computeCropRegion sx sy ex ey aW aH (W : ℚ) (H : ℚ)).x ∧
    (computeCropRegion sx sy ex ey aW aH (W : ℚ) (H : ℚ)).x ≤ W - 1 ∧
    0 ≤ (computeCropRegion sx sy ex ey aW aH (W : ℚ) (H : ℚ)).y ∧
    (computeCropRegion sx sy ex ey aW aH (W : ℚ) (H : ℚ)).y ≤ H - 1 ∧
    1 ≤ (computeCropRegion sx sy ex ey aW aH (W : ℚ) (H : ℚ)).width ∧
    1 ≤ (computeCropRegion sx sy ex ey aW aH (W : ℚ) (H : ℚ)).height ∧
    (computeCropRegion sx sy ex ey aW aH (W : ℚ) (H : ℚ)).x +
      (computeCropRegion sx sy ex ey aW aH (W : ℚ) (H : ℚ)).width ≤ W ∧
    (computeCropRegion sx sy ex ey aW aH (W : ℚ) (H : ℚ)).y +
      (computeCropRegion sx sy ex ey aW aH (W : ℚ) (H : ℚ)).height ≤ H := by
  refine ⟨(trunc_origin_bounds _ W hW).1, (trunc_origin_bounds _ W hW).2,
          (trunc_origin_bounds _ H hH).1, (trunc_origin_bounds _ H hH).2,
          (trunc_extent_bounds _ W _ (trunc_origin_bounds _ W hW).2).1,
          (trunc_extent_bounds _ H _ (trunc_origin_bounds _ H hH).2).1,
          (trunc_extent_bounds _ W _ (trunc_origin_bounds _ W hW).2).2,
          (trunc_extent_bounds _ H _ (trunc_origin_bounds _ H hH).2).2⟩

/-- Witness for C4 at a concrete selection and image size. -/
theorem crop_region_clamped_witness :
    (1 : ℤ) ≤ 100 ∧
    (0 ≤ (computeCropRegion 0 0 10 10 100 100 ((100 : ℤ) : ℚ) ((100 : ℤ) : ℚ)).x ∧
     (computeCropRegion 0 0 10 10 100 100 ((100 : ℤ) : ℚ) ((100 : ℤ) : ℚ)).x ≤ 100 - 1 ∧
     0 ≤ (computeCropRegion 0 0 10 10 100 100 ((100 : ℤ) : ℚ) ((100 : ℤ) : ℚ)).y ∧
     (computeCropRegion 0 0 10 10 100 100 ((100 : ℤ) : ℚ) ((100 : ℤ) : ℚ)).y ≤ 100 - 1 ∧
     1 ≤ (computeCropRegion 0 0 10 10 100 100 ((100 : ℤ) : ℚ) ((100 : ℤ) : ℚ)).width ∧
     1 ≤ (computeCropRegion 0 0 10 10 100 100 ((100 : ℤ) : ℚ) ((100 : ℤ) : ℚ)).height ∧
     (computeCropRegion 0 0 10 10 100 100 ((100 : ℤ) : ℚ) ((100 : ℤ) : ℚ)).x +
       (computeCropRegion 0 0 10 10 100 100 ((100 : ℤ) : ℚ) ((100 : ℤ) : ℚ)).width ≤ 100 ∧
     (computeCropRegion 0 0 10 10 100 100 ((100 : ℤ) : ℚ) ((100 : ℤ) : ℚ)).y +
       (computeCropRegion 0 0 10 10 100 100 ((100 : ℤ) : ℚ) ((100 : ℤ) : ℚ)).height ≤ 100) :=
  ⟨by norm_num, crop_region_clamped 0 0 10 10 100 100 100 100 (by norm_num) (by norm_num)⟩

/-- Claim C8: when the crop application aborts — no active selection, no
image buffer, or a region reported degenerate after clamping — it
returns silently without touching the session (in particular its crop)
and without pushing anything onto the undo or redo history. -/
theorem apply_crop_abort_silent (e : EditorView) (env : CropEnv)
    (h : e.cropActive = false ∨ e.hasOriginalBuf = false ∨
      (computeCropRegion e.cropStartX e.cropStartY e.cropEndX e.cropEndY
        env.areaW env.areaH (env.imgW : ℚ) (env.imgH : ℚ)).width ≤ 0 ∨
      (computeCropRegion e.cropStartX e.cropStartY e.cropEndX e.cropEndY
        env.areaW env.areaH (env.imgW : ℚ) (env.imgH : ℚ)).height ≤ 0) :
    (e.applyCropToImage env).session = e.session ∧
    (e.applyCropToImage env).undoStack = e.undoStack ∧
    (e.applyCropToImage env).redoStack = e.redoStack := by
  rw [EditorView.applyCropToImage]
  by_cases h1 : e.cropActive = false ∨ e.hasOriginalBuf = false
  · rw [if_pos h1]
    exact ⟨rfl, rfl, rfl⟩
  · rw [if_neg h1]
    have h2 : (computeCropRegion e.cropStartX e.cropStartY e.cropEndX e.cropEndY
        env.areaW env.areaH (env.imgW : ℚ) (env.imgH : ℚ)).width ≤ 0 ∨
      (computeCropRegion e.cropStartX e.cropStartY e.cropEndX e.cropEndY
        env.areaW env.areaH (env.imgW : ℚ) (env.imgH : ℚ)).height ≤ 0 := by tauto
    dsimp only
    rw [if_pos h2]
    exact ⟨rfl, rfl, rfl⟩

/-- Witness for C8: aborting with no active selection leaves session and
history untouched. -/
theorem apply_crop_abort_silent_witness :
    (editorBase.applyCropToImage ⟨100, 100, 100, 100, true⟩).session = editorBase.session ∧
    (editorBase.applyCropToImage ⟨100, 100, 100, 100, true⟩).undoStack = editorBase.undoStack ∧
    (editorBase.applyCropToImage ⟨100, 100, 100, 100, true⟩).redoStack = editorBase.redoStack :=
  apply_crop_abort_silent editorBase ⟨100, 100, 100, 100, true⟩ (Or.inl rfl)

/-! ### Undo/redo round-trip lemmas -/

lemma Undo_eq (e : EditorView) (act : EditAction) (h : e.undoStack.getLast? = some act) :
    e.Undo = applyUndo { e with undoStack := e.undoStack.dropLast,
                                redoStack := e.redoStack ++ [act] } act := by
  rw [EditorView.Undo, h]

lemma Redo_eq (e : EditorView) (act : EditAction) (h : e.redoStack.getLast? = some act) :
    e.Redo = applyRedo { e with redoStack := e.redoStack.dropLast,
                                undoStack := e.undoStack ++ [act] } act := by
  rw [EditorView.Redo, h]

lemma applyUndo_stroke_typ (e : EditorView) (act : EditAction) (h : act.typ = "stroke")
    (hpos : e.session.strokes.length > 0) :
    applyUndo e act =
      { e with session := { e.session with strokes := e.session.strokes.dropLast } } := by
  simp only [applyUndo, h, if_pos hpos]

lemma applyUndo_erase (e : EditorView) (act : EditAction) (s : Stroke)
    (h : act.typ = "erase") (hd : act.data = .strokeData s) :
    applyUndo e act = { e with session := e.session.AddStroke s } := by
  simp only [applyUndo, h, hd]

lemma applyUndo_crop_parts (e : EditorView) (act : EditAction) (h : act.typ = "crop") :
    (applyUndo e act).session = e.session.ClearCrop ∧
    (applyUndo e act).redoStack = e.redoStack := by
  simp only [applyUndo, h]
  by_cases hb : e.hasPreCropBuf <;> simp [hb]

lemma applyRedo_stroke (e : EditorView) (act : EditAction) (s : Stroke)
    (h : act.typ = "stroke") (hd : act.data = .strokeData s) :
    applyRedo e act = { e with session := e.session.AddStroke s } := by
  simp only [applyRedo, h, hd]

lemma applyRedo_erase (e : EditorView) (act : EditAction) (s : Stroke)
    (h : act.typ = "erase") (hd : act.data = .strokeData s) :
    applyRedo e act =
      { e with session := { e.session with strokes := removeFirstMatch e.session.strokes s } } := by
  simp only [applyRedo, h, hd]

lemma applyRedo_crop_payload (e : EditorView) (act : EditAction) (c : CropRegion)
    (h : act.typ = "crop") (hd : act.data = .cropData c) :
    (applyRedo e act).session = e.session.SetCrop c := by
  simp only [applyRedo, h, hd]
  by_cases hb : e.hasPostCropBuf <;> simp [hb]

lemma applyRedo_crop_nil (e : EditorView) (act : EditAction)
    (h : act.typ = "crop") (hd : act.data = .nilData) :
    (applyRedo e act).session = e.session := by
  simp only [applyRedo, h, hd]
  by_cases hb : e.hasPostCropBuf <;> simp [hb]

lemma removeFirstMatch_no_match (s : Stroke) : ∀ L : List Stroke,
    (∀ t ∈ L, ¬(t.points.length = s.points.length ∧ t.color = s.color)) →
    removeFirstMatch (L ++ [s]) s = L := by
  intro L
  induction L with
  | nil =>
    intro _
    simp [removeFirstMatch]
  | cons a t ih =>
    intro h
    rw [List.cons_append, removeFirstMatch,
        if_neg (h a (List.mem_cons_self a t)),
        ih (fun b hb => h b (List.mem_cons_of_mem a hb))]

/-- The state `applyCropToImage` reaches in the counterexample below:
a committed crop of `(10,10)`–`(60,60)` on a 100×100 image in a 100×100
viewport. -/
def cropEditor : EditorView :=
  { editorBase with cropStartX := 10, cropStartY := 10, cropEndX := 60, cropEndY := 60,
                    cropActive := true }

/-- Environment for the counterexample crop: 100×100 viewport, 100×100
image, subpixbuf creation succeeds. -/
def cropEnvC : CropEnv := ⟨100, 100, 100, 100, true⟩

lemma applyCrop_result :
    cropEditor.applyCropToImage cropEnvC =
      { editorBase with
          session := { NewEditSession "/a/b.jpg" with crop := some ⟨10, 10, 50, 50, ""⟩ },
          undoStack := [⟨"crop", .nilData, "Crop image"⟩],
          hasPreCropBuf := true, hasPostCropBuf := true } := by
  have hr : computeCropRegion 10 10 60 60 100 100 ((100 : ℤ) : ℚ) ((100 : ℤ) : ℚ) =
      ⟨10, 10, 50, 50, ""⟩ := by
    simp [computeCropRegion, trunc]
    norm_num
  rw [EditorView.applyCropToImage]
  rw [if_neg (by simp [cropEditor, editorBase])]
  dsimp only
  rw [show computeCropRegion cropEditor.cropStartX cropEditor.cropStartY cropEditor.cropEndX
        cropEditor.cropEndY cropEnvC.areaW cropEnvC.areaH (cropEnvC.imgW : ℚ) (cropEnvC.imgH : ℚ) =
      computeCropRegion 10 10 60 60 100 100 ((100 : ℤ) : ℚ) ((100 : ℤ) : ℚ) from rfl, hr]
  rw [if_neg (by norm_num)]
  rw [if_neg (by simp [cropEnvC])]
  simp [cropEditor, editorBase, EditorView.pushUndo, EditorView.cancelCrop,
        EditSession.SetCrop, NewEditSession]

/-- Counterexample for C2: in the state `applyCropToImage` leaves behind
— a single `crop` action on the undo stack, pushed with no payload —
`Undo()` then `Redo()` changes the session content: the crop region is
cleared by the undo and never restored by the redo, although the only
exception the claim allows is for `erase` actions.  (The stroke list is
unchanged; the loss is in the crop.) -/
theorem undo_redo_crop_counterexample :
    (cropEditor.applyCropToImage cropEnvC).undoStack.map EditAction.typ = ["crop"] ∧
    ((cropEditor.applyCropToImage cropEnvC).Undo.Redo).session.strokes =
      (cropEditor.applyCropToImage cropEnvC).session.strokes ∧
    (cropEditor.applyCropToImage cropEnvC).session.crop = some ⟨10, 10, 50, 50, ""⟩ ∧
    ((cropEditor.applyCropToImage cropEnvC).Undo.Redo).session.crop ≠
      (cropEditor.applyCropToImage cropEnvC).session.crop := by
  rw [applyCrop_result]
  refine ⟨rfl, rfl, rfl, ?_⟩
  intro hcontra
  simp [EditorView.Undo, EditorView.Redo, applyUndo, applyRedo, editorBase,
        NewEditSession, EditSession.ClearCrop] at hcontra

/-- Claim C2 as amended: `Undo(); Redo()` preserves the session content
(stroke list and crop region) for a `stroke` action whose payload is the
session's last stroke, and for an `erase` action whose payload matches
no session stroke by point-count and color (the fragility the original
claim already excepts); for a `crop` action it preserves the content
only when the action carries a crop payload equal to the session's crop
— a `crop` action pushed with no payload (as `applyCropToImage` pushes
it) loses the crop region: undo clears it and redo does not restore
it. -/
theorem undo_redo_roundtrip_amended (e : EditorView) (act : EditAction)
    (hlast : e.undoStack.getLast? = some act) :
    (∀ s : Stroke, act.typ = "stroke" → act.data = .strokeData s →
      e.session.strokes.getLast? = some s →
      (e.Undo.Redo).session.strokes = e.session.strokes ∧
      (e.Undo.Redo).session.crop = e.session.crop) ∧
    (∀ s : Stroke, act.typ = "erase" → act.data = .strokeData s →
      (∀ t ∈ e.session.strokes,
        ¬(t.points.length = s.points.length ∧ t.color = s.color)) →
      (e.Undo.Redo).session.strokes = e.session.strokes ∧
      (e.Undo.Redo).session.crop = e.session.crop) ∧
    (∀ c : CropRegion, act.typ = "crop" → act.data = .cropData c →
      e.session.crop = some c →
      (e.Undo.Redo).session.strokes = e.session.strokes ∧
      (e.Undo.Redo).session.crop = e.session.crop) ∧
    (act.typ = "crop" → act.data = .nilData →
      (e.Undo.Redo).session.strokes = e.session.strokes ∧
      (e.Undo.Redo).session.crop = none) := by
  have hundo := Undo_eq e act hlast
  refine ⟨fun s hty hd hlastst => ?_, fun s hty hd hnone => ?_,
          fun c hty hd hcrop => ?_, fun hty hd => ?_⟩
  · -- stroke: the session's last stroke is the payload
    obtain ⟨l, hl⟩ := List.getLast?_eq_some_iff.mp hlastst
    have hpos : ({ e with undoStack := e.undoStack.dropLast,
                          redoStack := e.redoStack ++ [act] } :
        EditorView).session.strokes.length > 0 := by
      show e.session.strokes.length > 0
      simp [hl]
    have hus : (e.Undo).session.strokes = l := by
      rw [hundo, applyUndo_stroke_typ _ act hty hpos]
      show e.session.strokes.dropLast = l
      rw [hl, List.dropLast_concat]
    have hucrop : (e.Undo).session.crop = e.session.crop := by
      rw [hundo, applyUndo_stroke_typ _ act hty hpos]
    have hpr : (e.Undo).redoStack = e.redoStack ++ [act] := by
      rw [hundo, applyUndo_stroke_typ _ act hty hpos]
    have hget2 : (e.Undo).redoStack.getLast? = some act := by
      rw [hpr]
      exact List.getLast?_concat _
    have hredo := Redo_eq e.Undo act hget2
    constructor
    · rw [hredo, applyRedo_stroke _ act s hty hd]
      show (e.Undo).session.strokes ++ [s] = e.session.strokes
      rw [hus, hl]
    · rw [hredo, applyRedo_stroke _ act s hty hd]
      show (e.Undo).session.crop = e.session.crop
      exact hucrop
  · -- erase: no session stroke matches the payload by point-count/color
    have hus : (e.Undo).session = e.session.AddStroke s := by
      rw [hundo, applyUndo_erase _ act s hty hd]
    have hpr : (e.Undo).redoStack = e.redoStack ++ [act] := by
      rw [hundo, applyUndo_erase _ act s hty hd]
    have hget2 : (e.Undo).redoStack.getLast? = some act := by
      rw [hpr]
      exact List.getLast?_concat _
    have hredo := Redo_eq e.Undo act hget2
    constructor
    · rw [hredo, applyRedo_erase _ act s hty hd]
      show removeFirstMatch ((e.Undo).session.strokes) s = e.session.strokes
      rw [hus]
      show removeFirstMatch (e.session.strokes ++ [s]) s = e.session.strokes
      exact removeFirstMatch_no_match s e.session.strokes hnone
    · rw [hredo, applyRedo_erase _ act s hty hd]
      show (e.Undo).session.crop = e.session.crop
      rw [hus]
      rfl
  · -- crop with a payload equal to the session crop
    have hus : (e.Undo).session = e.session.ClearCrop := by
      rw [hundo]
      exact (applyUndo_crop_parts _ act hty).1
    have hpr : (e.Undo).redoStack = e.redoStack ++ [act] := by
      rw [hundo]
      exact (applyUndo_crop_parts _ act hty).2
    have hget2 : (e.Undo).redoStack.getLast? = some act := by
      rw [hpr]
      exact List.getLast?_concat _
    have hredo := Redo_eq e.Undo act hget2
    constructor
    · rw [hredo, applyRedo_crop_payload _ act c hty hd]
      show ((e.Undo).session.SetCrop c).strokes = e.session.strokes
      rw [hus]
      rfl
    · rw [hredo, applyRedo_crop_payload _ act c hty hd]
      show some c = e.session.crop
      rw [hcrop]
  · -- crop with a nil payload: the crop region is lost
    have hus : (e.Undo).session = e.session.ClearCrop := by
      rw [hundo]
      exact (applyUndo_crop_parts _ act hty).1
    have hpr : (e.Undo).redoStack = e.redoStack ++ [act] := by
      rw [hundo]
      exact (applyUndo_crop_parts _ act hty).2
    have hget2 : (e.Undo).redoStack.getLast? = some act := by
      rw [hpr]
      exact List.getLast?_concat _
    have hredo := Redo_eq e.Undo act hget2
    constructor
    · rw [hredo, applyRedo_crop_nil _ act hty hd]
      show (e.Undo).session.strokes = e.session.strokes
      rw [hus]
      rfl
    · rw [hredo, applyRedo_crop_nil _ act hty hd]
      show (e.Undo).session.crop = none
      rw [hus]
      rfl

/-- The concrete state for the C2 witness: one committed pen stroke with
its matching `stroke` entry on the undo stack. -/
def roundtripEditor : EditorView :=
  { editorBase with
      session := { NewEditSession "/a/b.jpg" with strokes := [strokeTen] },
      undoStack := [penStrokeAction strokeTen] }

/-- Witness for the amended C2: the round trip preserves the session
content in the stroke case at a concrete state. -/
theorem undo_redo_roundtrip_amended_witness :
    (roundtripEditor.Undo.Redo).session.strokes = roundtripEditor.session.strokes ∧
    (roundtripEditor.Undo.Redo).session.crop = roundtripEditor.session.crop :=
  (undo_redo_roundtrip_amended roundtripEditor (penStrokeAction strokeTen) rfl).1
    strokeTen rfl rfl rfl

end Frame
